import Mathlib

/-!
Verification development for `process_pdfs.py`: a batch PDF-outline
extractor.  The Python source is shallowly embedded below: Python strings
become Lean `String` (with helpers mirroring the Python string methods,
defined over the underlying `List Char`), Python floats become `ℚ`,
fallible operations are modelled with explicit flags/`Option`, and the
per-file loop with its `try/except` becomes a total recursive function.
-/

/-! ## Python string primitives -/

/-- Python `str.startswith`. -/
def pyStartsWith (s p : String) : Bool := p.data.isPrefixOf s.data

/-- Python `str.endswith`. -/
def pyEndsWith (s p : String) : Bool := p.data.isSuffixOf s.data

/-- Python `str.strip()` (strip leading and trailing whitespace). -/
def pyStrip (s : String) : String :=
  ⟨((s.data.dropWhile Char.isWhitespace).reverse.dropWhile Char.isWhitespace).reverse⟩

/-- Python slicing `s[:n]`. -/
def pyTake (s : String) (n : Nat) : String := ⟨s.data.take n⟩

/-- Python `len(s)`. -/
def pyLen (s : String) : Nat := s.data.length

/-- Python `str.upper()` (ASCII model). -/
def pyUpper (s : String) : String := ⟨s.data.map Char.toUpper⟩

/-- Python `str.isupper()`: at least one cased character and no lowercase
cased character (alphabetic characters model cased characters). -/
def pyIsUpper (s : String) : Bool :=
  (s.data.any fun c => c.isAlpha) && (s.data.all fun c => !c.isAlpha || c.isUpper)

/-- Python `str.replace(a, b)` for one-character patterns. -/
def pyReplaceChar (s : String) (a b : Char) : String :=
  ⟨s.data.map fun c => if c = a then b else c⟩

/-- Helper for `pyTitleCase`: the boolean records whether the previous
character was alphabetic. -/
def pyTitleAux : List Char → Bool → List Char
  | [], _ => []
  | c :: cs, prevAlpha =>
    (if c.isAlpha then (if prevAlpha then c.toLower else c.toUpper) else c) ::
      pyTitleAux cs c.isAlpha

/-- Python `str.title()` (ASCII model). -/
def pyTitleCase (s : String) : String := ⟨pyTitleAux s.data false⟩

/-- Helper for `pySplitChar`. -/
def splitOnCharAux (c : Char) : List Char → List Char → List (List Char)
  | [], acc => [acc.reverse]
  | x :: xs, acc =>
    if x = c then acc.reverse :: splitOnCharAux c xs []
    else splitOnCharAux c xs (x :: acc)

/-- Python `s.split(c)` for a one-character separator (e.g. `split('\n')`). -/
def pySplitChar (c : Char) (s : String) : List String :=
  (splitOnCharAux c s.data []).map fun l => ⟨l⟩

/-- Helper for `pyWords`. -/
def pySplitWSAux : List Char → List Char → List (List Char)
  | [], acc => if acc = [] then [] else [acc.reverse]
  | c :: cs, acc =>
    if c.isWhitespace then
      (if acc = [] then pySplitWSAux cs [] else acc.reverse :: pySplitWSAux cs [])
    else pySplitWSAux cs (c :: acc)

/-- Python `s.split()` with no argument: split on whitespace runs,
dropping empty pieces. -/
def pyWords (s : String) : List (List Char) := pySplitWSAux s.data []

/-- Python `str.rfind` helper: index scan keeping the last hit. -/
def pyRfindAux (c : Char) : List Char → Int → Int → Int
  | [], _, best => best
  | x :: xs, i, best => pyRfindAux c xs (i + 1) (if x = c then i else best)

/-- Python `s.rfind(c)`: index of the last occurrence, `-1` if absent. -/
def pyRfind (c : Char) (s : String) : Int := pyRfindAux c s.data 0 (-1)

/-- `pathlib.Path.stem`: the final component without its suffix.  The
suffix is recognised only when the last dot is neither the first nor the
last character of the name. -/
def pdfStem (name : String) : String :=
  let i := pyRfind '.' name
  if 0 < i ∧ i < (name.data.length : Int) - 1 then ⟨name.data.take i.toNat⟩
  else name

/-! ## Data model -/

/-- One outline entry as emitted in the JSON output. -/
structure OutlineEntry where
  level : String
  text : String
  page : Int
  deriving Repr, DecidableEq

/-- The record serialized to each output JSON file. -/
structure ExtractionResult where
  title : String
  outline : List OutlineEntry
  deriving Repr, DecidableEq

/-- The six legal heading levels of the output schema. -/
def sixLevels : List String := ["H1", "H2", "H3", "H4", "H5", "H6"]

/-- A minimal JSON value model, enough for the output records. -/
inductive JsonVal where
  | str (s : String)
  | int (n : Int)
  | arr (xs : List JsonVal)
  | obj (fields : List (String × JsonVal))
  deriving Repr

/-- Serialization of an outline entry. -/
def entryJson (e : OutlineEntry) : JsonVal :=
  .obj [("level", .str e.level), ("text", .str e.text), ("page", .int e.page)]

/-- Serialization of an extraction result. -/
def resultJson (r : ExtractionResult) : JsonVal :=
  .obj [("title", .str r.title), ("outline", .arr (r.outline.map entryJson))]

/-- A JSON value conforming to the OutlineEntry schema: an object with a
level in H1..H6, a string text and an integer page. -/
def isEntryObj : JsonVal → Prop
  | .obj [("level", .str l), ("text", .str _), ("page", .int _)] => l ∈ sixLevels
  | _ => False

/-- A JSON value conforming to the ExtractionResult schema. -/
def isResultObj : JsonVal → Prop
  | .obj [("title", .str _), ("outline", .arr es)] => ∀ e ∈ es, isEntryObj e
  | _ => False

/-! ## PyPDF2 bookmark path (`process_pypdf2_outline`) -/

/-- The object a PyPDF2 bookmark's `page` attribute points to.  `idnum`
is the PDF indirect-object identifier (absent when the object has no
`idnum` attribute); `truePage` is the ground-truth 1-based page number of
the page that the bookmark targets in the document. -/
structure PageObj where
  idnum : Option Int
  truePage : Int
  deriving Repr, DecidableEq

/-- A PyPDF2 `reader.outline` item: either a bookmark (title plus an
optional page reference, `none` when `item.page` is missing or falsy) or
a nested list of items. -/
inductive Bookmark where
  | item (title : String) (page : Option PageObj)
  | nested (children : List Bookmark)
  deriving Repr

/-- The page number computed for a bookmark item: `item.page.idnum` when
present, otherwise the default `1`. -/
def pageNumOf : Option PageObj → Int
  | none => 1
  | some p => match p.idnum with
    | some n => n
    | none => 1

/-- `f"H{min(level, 6)}"`. -/
def toH (n : Nat) : String := "H" ++ toString n

/-- `process_pypdf2_outline`: flatten the bookmark tree, one entry per
bookmark, nesting depth giving the heading level (capped at 6). -/
def process_pypdf2_outline : List Bookmark → Nat → List OutlineEntry
  | [], _ => []
  | Bookmark.item t pg :: rest, lvl =>
    ⟨toH (min lvl 6), pyStrip t, pageNumOf pg⟩ :: process_pypdf2_outline rest lvl
  | Bookmark.nested cs :: rest, lvl =>
    process_pypdf2_outline cs (lvl + 1) ++ process_pypdf2_outline rest lvl

/-! ## PyPDF2 text heuristic (`extract_headings_from_text`) -/

/-- The table-of-contents keyword list tested case-insensitively. -/
def tocKeys : List String :=
  ["Table of Contents", "Contents", "Revision History",
   "Acknowledgements", "Abstract", "Summary", "Overview",
   "Introduction", "Conclusion", "References", "Bibliography"]

/-- The numbered-section markers `'1.'..'9.'` and `'1 '..'9 '`. -/
def numKeys : List String :=
  ["1.", "2.", "3.", "4.", "5.", "6.", "7.", "8.", "9.",
   "1 ", "2 ", "3 ", "4 ", "5 ", "6 ", "7 ", "8 ", "9 "]

/-- The subsection markers `'1.1'..'4.9'`. -/
def subKeys : List String :=
  ["1.1", "1.2", "1.3", "1.4", "1.5", "1.6", "1.7", "1.8", "1.9",
   "2.1", "2.2", "2.3", "2.4", "2.5", "2.6", "2.7", "2.8", "2.9",
   "3.1", "3.2", "3.3", "3.4", "3.5", "3.6", "3.7", "3.8", "3.9",
   "4.1", "4.2", "4.3", "4.4", "4.5", "4.6", "4.7", "4.8", "4.9"]

/-- The chapter-indicator keyword list tested case-insensitively. -/
def chapKeys : List String := ["Chapter", "Section", "Part", "Appendix"]

/-- The keyword list of the H1 branch of the level assignment. -/
def levelH1Keys : List String :=
  ["Chapter", "Part", "Table of Contents", "Contents",
   "Revision History", "Acknowledgements", "Abstract",
   "Summary", "Overview", "Introduction", "Conclusion",
   "References", "Bibliography"]

/-- `any(s.startswith(p) for p in ps)`. -/
def startsWithAny (s : String) (ps : List String) : Bool :=
  ps.any fun p => pyStartsWith s p

/-- `any(s.upper().startswith(p.upper()) for p in ps)`. -/
def startsWithAnyUpper (s : String) (ps : List String) : Bool :=
  ps.any fun p => pyStartsWith (pyUpper s) (pyUpper p)

/-- The `clean_line` computation: drop one trailing period and re-strip. -/
def cleanLine (l : String) : String :=
  if pyEndsWith l "." then pyStrip ⟨l.data.dropLast⟩ else l

/-- The `is_heading` test of `extract_headings_from_text`. -/
def isHeading (cl : String) : Bool :=
  decide (pyLen cl < 200) && !pyEndsWith cl "." &&
    (startsWithAnyUpper cl tocKeys ||
     startsWithAny cl numKeys ||
     startsWithAny cl subKeys ||
     startsWithAnyUpper cl chapKeys ||
     (pyIsUpper cl && decide (pyLen cl < 100)) ||
     (decide ((pyWords cl).length ≤ 10) && cl.data.contains ':'))

/-- The heading-level assignment of `extract_headings_from_text`. -/
def headingLevel (cl : String) : String :=
  if startsWithAnyUpper cl levelH1Keys then "H1"
  else if startsWithAny cl numKeys then "H1"
  else if startsWithAny cl subKeys then "H2"
  else if pyIsUpper cl && decide (pyLen cl < 50) then "H1"
  else "H2"

/-- Per-line processing of `extract_headings_from_text`: strip, skip
short lines, clean, test `is_heading`, and build the entry. -/
def lineHeadingEntry (pg : Int) (line : String) : Option OutlineEntry :=
  let l := pyStrip line
  if l = "" ∨ pyLen l < 3 then none
  else
    let cl := cleanLine l
    if isHeading cl then some ⟨headingLevel cl, pyStrip cl, pg⟩ else none

/-- The inner (line) loop of `extract_headings_from_text`, with its
`break` once the outline length exceeds 50 after an append. -/
def textHeadingsLines : List String → Int → List OutlineEntry → List OutlineEntry
  | [], _, outline => outline
  | line :: rest, pg, outline =>
    match lineHeadingEntry pg line with
    | none => textHeadingsLines rest pg outline
    | some e =>
      let o := outline ++ [e]
      if 50 < o.length then o else textHeadingsLines rest pg o

/-- The outer (page) loop of `extract_headings_from_text`: pages with
falsy text are skipped, and the loop breaks once the outline length
exceeds 50. -/
def textHeadingsPages : List String → Nat → List OutlineEntry → List OutlineEntry
  | [], _, outline => outline
  | text :: rest, pageNum, outline =>
    if text = "" then textHeadingsPages rest (pageNum + 1) outline
    else
      let o := textHeadingsLines (pySplitChar '\n' text) ((pageNum : Int) + 1) outline
      if 50 < o.length then o else textHeadingsPages rest (pageNum + 1) o

/-- `extract_headings_from_text` over the list of per-page extracted
texts (`""` models a falsy `extract_text()` result). -/
def extract_headings_from_text (pages : List String) : List OutlineEntry :=
  textHeadingsPages pages 0 []

/-! ## pdfplumber path (`extract_with_pdfplumber` line heuristic) -/

/-- One pdfplumber page: whether `page.chars` is truthy, and the
`extract_text()` result (`""` models a falsy result). -/
structure PlumberPage where
  hasChars : Bool
  text : String
  deriving Repr, DecidableEq

/-- The keyword list of the pdfplumber `is_heading` test. -/
def plumberHeadKeys : List String :=
  ["Chapter", "Section", "Part", "Introduction", "Conclusion"]

/-- The pdfplumber `is_heading` test. -/
def plumberIsHeading (l : String) : Bool :=
  decide (pyLen l < 100) &&
    (pyIsUpper l ||
     startsWithAny l plumberHeadKeys ||
     pyEndsWith l ":" ||
     (decide ((pyWords l).length ≤ 8) && !pyEndsWith l "."))

/-- The pdfplumber heading-level assignment. -/
def plumberLevel (l : String) : String :=
  if startsWithAny l ["Chapter", "Part"] then "H1"
  else if startsWithAny l ["Section"] then "H2"
  else if pyIsUpper l then "H2"
  else "H3"

/-- Per-line processing of the pdfplumber loop: strip, keep lines longer
than 3 characters, test the heuristic, and build the entry. -/
def plumberLineEntry (pg : Int) (line : String) : Option OutlineEntry :=
  let l := pyStrip line
  if l ≠ "" ∧ 3 < pyLen l then
    (if plumberIsHeading l then some ⟨plumberLevel l, l, pg⟩ else none)
  else none

/-- The pdfplumber page loop: pages without chars or without text
contribute nothing. -/
def plumberPages : List PlumberPage → Nat → List OutlineEntry
  | [], _ => []
  | p :: rest, n =>
    (if p.hasChars && p.text ≠ "" then
      (pySplitChar '\n' p.text).filterMap (plumberLineEntry ((n : Int) + 1))
     else []) ++ plumberPages rest (n + 1)

/-! ## PyMuPDF path (`extract_with_pymupdf`, `analyze_text_formatting`) -/

/-- One text span with formatting data (`span["text"]`, `span["size"]`,
`span["flags"]`); sizes are modelled as exact rationals. -/
structure Span where
  text : String
  size : ℚ
  flags : Nat
  deriving Repr, DecidableEq

/-- One PyMuPDF page: the plain `get_text()` result and the flattened
sequence of spans of `get_text("dict")`, in reading order. -/
structure FitzPage where
  text : String
  spans : List Span
  deriving Repr, DecidableEq

/-- A collected block of `analyze_text_formatting`. -/
structure Block where
  text : String
  size : ℚ
  flags : Nat
  page : Int
  deriving Repr, DecidableEq

/-- Span filtering of the collection loop: strip the text and keep spans
whose text is truthy and longer than 3 characters. -/
def spanBlock (pg : Int) (s : Span) : Option Block :=
  let t := pyStrip s.text
  if t ≠ "" ∧ 3 < pyLen t then some ⟨t, s.size, s.flags, pg⟩ else none

/-- The block-collection loop of `analyze_text_formatting`: pages in
order, page numbers 1-based. -/
def collectBlocks : List FitzPage → Nat → List Block
  | [], _ => []
  | p :: rest, n =>
    p.spans.filterMap (spanBlock ((n : Int) + 1)) ++ collectBlocks rest (n + 1)

/-- The average font size `sum(sizes) / len(sizes)`. -/
def avgSize (blocks : List Block) : ℚ :=
  ((blocks.map Block.size).sum) / ((blocks.map Block.size).length : ℚ)

/-- The keyword list of the PyMuPDF heading test. -/
def fitzHeadKeys : List String := ["Chapter", "Section", "Part"]

/-- Per-block processing of `analyze_text_formatting`: skip long text,
test bold / large / uppercase / keyword, and assign the level from the
font size relative to the average. -/
def emitBlock (avg : ℚ) (b : Block) : Option OutlineEntry :=
  if 200 < pyLen b.text then none
  else
    if (b.flags.land 16 ≠ 0) || decide (avg * (12 / 10) < b.size) ||
        pyIsUpper b.text || startsWithAny b.text fitzHeadKeys then
      some ⟨(if avg * (15 / 10) < b.size then "H1"
             else if avg * (13 / 10) < b.size then "H2"
             else if avg * (11 / 10) < b.size then "H3"
             else "H4"), b.text, b.page⟩
    else none

/-- `analyze_text_formatting`: collect the blocks, return `[]` when there
are none (so the average is only computed over a non-empty list), else
emit the heading-like blocks. -/
def analyze_text_formatting (pages : List FitzPage) : List OutlineEntry :=
  let all_blocks := collectBlocks pages 0
  if all_blocks.isEmpty then []
  else all_blocks.filterMap (emitBlock (avgSize all_blocks))

/-- The TOC branch of `extract_with_pymupdf`: one entry per
`get_toc()` triple, level capped at 6, page taken as returned. -/
def tocOutline (toc : List (Nat × String × Int)) : List OutlineEntry :=
  toc.map fun x => ⟨toH (min x.1 6), pyStrip x.2.1, x.2.2⟩

/-! ## Backends and the batch loop -/

/-- `extract_pdf_fallback`: filename-derived title, empty outline. -/
def extract_pdf_fallback (stem : String) : ExtractionResult :=
  ⟨pyTitleCase (pyReplaceChar (pyReplaceChar stem '_' ' ') '-' ' '), []⟩

/-- Abstract content of a PDF as PyPDF2 sees it: the metadata title
(`""` when metadata or its title is falsy), the bookmark forest (`[]`
when `reader.outline` is missing or falsy), the per-page extracted
texts, and whether reading raises an exception. -/
structure Pypdf2Doc where
  metaTitle : String
  bookmarks : List Bookmark
  pages : List String
  raises : Bool
  deriving Repr

/-- First-page title extraction shared by the backends: split the text
into lines, strip them, drop empties, take the first and cap at 100. -/
def firstLineTitle (text : String) : String :=
  let lines := ((pySplitChar '\n' text).map pyStrip).filter fun l => l ≠ ""
  match lines with
  | [] => ""
  | l :: _ => pyTake l 100

/-- `extract_with_pypdf2`: metadata title, bookmark outline, first-page
title fallback, text-heuristic outline fallback, stem title fallback;
any exception degrades to `extract_pdf_fallback`. -/
def extract_with_pypdf2 (stem : String) (d : Pypdf2Doc) : ExtractionResult :=
  if d.raises then extract_pdf_fallback stem
  else
    let t0 := if d.metaTitle ≠ "" then pyTake (pyStrip d.metaTitle) 100 else ""
    let o0 := if d.bookmarks.isEmpty then [] else process_pypdf2_outline d.bookmarks 1
    let t1 := if t0 = "" then
        (match d.pages with
         | [] => ""
         | p :: _ => firstLineTitle p)
      else t0
    let o1 := if o0 = [] then extract_headings_from_text d.pages else o0
    let t2 := if t1 = "" then pyReplaceChar (pyReplaceChar stem '_' ' ') '-' ' ' else t1
    ⟨t2, o1⟩

/-- Abstract content of a PDF as pdfplumber sees it. -/
structure PlumberDoc where
  pages : List PlumberPage
  raises : Bool
  deriving Repr, DecidableEq

/-- `extract_with_pdfplumber`: first-page title with stem fallback, then
the line heuristic over all pages; any exception degrades to
`extract_pdf_fallback`. -/
def extract_with_pdfplumber (stem : String) (d : PlumberDoc) : ExtractionResult :=
  if d.raises then extract_pdf_fallback stem
  else
    let t0 := match d.pages with
      | [] => ""
      | p :: _ => firstLineTitle p.text
    let t1 := if t0 = "" then stem else t0
    ⟨t1, plumberPages d.pages 0⟩

/-- Abstract content of a PDF as PyMuPDF sees it: metadata title,
pages, and the `get_toc()` result. -/
structure FitzDoc where
  metaTitle : String
  pages : List FitzPage
  toc : List (Nat × String × Int)
  deriving Repr, DecidableEq

/-- `extract_with_pymupdf`: metadata title stripped, first-page title
fallback, stem fallback; outline from the embedded TOC when non-empty,
else from the formatting heuristic. -/
def extract_with_pymupdf (stem : String) (d : FitzDoc) : ExtractionResult :=
  let t0 := pyStrip d.metaTitle
  let t1 := if t0 = "" then
      (match d.pages with
       | [] => ""
       | p :: _ => firstLineTitle p.text)
    else t0
  let t2 := if t1 = "" then stem else t1
  let o := if d.toc.isEmpty then analyze_text_formatting d.pages else tocOutline d.toc
  ⟨t2, o⟩

/-- What happens when `extract_pdf_outline` runs on one file, as seen by
the batch loop: either a result, or an exception escaping. -/
inductive PdfData where
  | ok (r : ExtractionResult)
  | raises
  deriving Repr, DecidableEq

/-- One input file of the batch: its filename and its abstract content. -/
structure PdfJob where
  name : String
  data : PdfData
  deriving Repr, DecidableEq

/-- The body of the per-file loop of `process_pdfs`: the `try` branch
writes `{stem}.json` with the extraction result; the `except` branch
writes `{stem}.json` with the filename title and empty outline. -/
def jobOutput (j : PdfJob) : String × ExtractionResult :=
  match j.data with
  | .ok r => (pdfStem j.name ++ ".json", r)
  | .raises => (pdfStem j.name ++ ".json", ⟨pdfStem j.name, []⟩)

/-- The batch loop of `process_pdfs`: each file found by the directory
scan produces exactly one write, in order. -/
def process_pdfs : List PdfJob → List (String × ExtractionResult)
  | [] => []
  | j :: rest => jobOutput j :: process_pdfs rest

/-- The result part of one job's output. -/
def jobResult (j : PdfJob) : ExtractionResult :=
  match j.data with
  | .ok r => r
  | .raises => ⟨pdfStem j.name, []⟩

/-! ## Helper lemmas -/

theorem isPrefixOfIff {l1 l2 : List Char} :
    l1.isPrefixOf l2 = true ↔ l1 <+: l2 := List.isPrefixOf_iff_prefix

theorem isSuffixOfIff {l1 l2 : List Char} :
    l1.isSuffixOf l2 = true ↔ l1 <:+ l2 := List.isSuffixOf_iff_suffix

theorem str_ne_empty_iff (s : String) : s ≠ "" ↔ s.data ≠ [] := by
  constructor
  · intro h hd
    exact h (String.ext hd)
  · intro h hs
    exact h (by rw [hs])

theorem pyReplaceChar_ne_empty (s : String) (a b : Char) (h : s ≠ "") :
    pyReplaceChar s a b ≠ "" := by
  rw [str_ne_empty_iff] at h ⊢
  simpa [pyReplaceChar] using h

theorem pyTitleCase_ne_empty (s : String) (h : s ≠ "") : pyTitleCase s ≠ "" := by
  rw [str_ne_empty_iff] at h ⊢
  show pyTitleAux s.data false ≠ []
  cases hd : s.data with
  | nil => exact absurd hd h
  | cons c cs => simp [pyTitleAux]

theorem extract_pdf_fallback_title_ne (stem : String) (h : stem ≠ "") :
    (extract_pdf_fallback stem).title ≠ "" := by
  exact pyTitleCase_ne_empty _ (pyReplaceChar_ne_empty _ _ _ (pyReplaceChar_ne_empty _ _ _ h))

theorem headingLevel_eq_or (cl : String) :
    headingLevel cl = "H1" ∨ headingLevel cl = "H2" := by
  unfold headingLevel
  split_ifs <;> simp

theorem plumberLevel_eq_or (l : String) :
    plumberLevel l = "H1" ∨ plumberLevel l = "H2" ∨ plumberLevel l = "H3" := by
  unfold plumberLevel
  split_ifs <;> simp

theorem lineHeadingEntry_some {pg : Int} {line : String} {e : OutlineEntry}
    (h : lineHeadingEntry pg line = some e) :
    e.level = headingLevel (cleanLine (pyStrip line)) ∧ e.page = pg := by
  simp only [lineHeadingEntry] at h
  split at h
  · exact absurd h (by simp)
  · split at h
    · cases h
      exact ⟨rfl, rfl⟩
    · exact absurd h (by simp)

theorem lineHeadingEntry_level_mem {pg : Int} {line : String} {e : OutlineEntry}
    (h : lineHeadingEntry pg line = some e) : e.level ∈ sixLevels := by
  rcases lineHeadingEntry_some h with ⟨hl, -⟩
  rcases headingLevel_eq_or (cleanLine (pyStrip line)) with h2 | h2 <;>
    rw [hl, h2] <;> decide

theorem plumberLineEntry_some {pg : Int} {line : String} {e : OutlineEntry}
    (h : plumberLineEntry pg line = some e) :
    e.level = plumberLevel (pyStrip line) ∧ e.page = pg := by
  simp only [plumberLineEntry] at h
  split at h
  · split at h
    · cases h
      exact ⟨rfl, rfl⟩
    · exact absurd h (by simp)
  · exact absurd h (by simp)

theorem plumberLineEntry_level_mem {pg : Int} {line : String} {e : OutlineEntry}
    (h : plumberLineEntry pg line = some e) : e.level ∈ sixLevels := by
  rcases plumberLineEntry_some h with ⟨hl, -⟩
  rcases plumberLevel_eq_or (pyStrip line) with h2 | h2 | h2 <;>
    rw [hl, h2] <;> decide

theorem mem_textHeadingsLines {ls : List String} {pg : Int}
    {outline : List OutlineEntry} {e : OutlineEntry}
    (he : e ∈ textHeadingsLines ls pg outline) :
    e ∈ outline ∨ ∃ line, lineHeadingEntry pg line = some e := by
  induction ls generalizing outline with
  | nil => exact .inl he
  | cons line rest ih =>
    simp only [textHeadingsLines] at he
    cases hle : lineHeadingEntry pg line with
    | none =>
      rw [hle] at he
      exact ih he
    | some e' =>
      rw [hle] at he
      simp only [] at he
      by_cases h50 : 50 < (outline ++ [e']).length
      · rw [if_pos h50] at he
        rcases List.mem_append.mp he with h | h
        · exact .inl h
        · exact .inr ⟨line, by rw [hle, List.mem_singleton.mp h]⟩
      · rw [if_neg h50] at he
        rcases ih he with h | h
        · rcases List.mem_append.mp h with h | h
          · exact .inl h
          · exact .inr ⟨line, by rw [hle, List.mem_singleton.mp h]⟩
        · exact .inr h

theorem mem_textHeadingsPages {ps : List String} {n : Nat}
    {outline : List OutlineEntry} {e : OutlineEntry}
    (he : e ∈ textHeadingsPages ps n outline) :
    e ∈ outline ∨ ∃ pg line, lineHeadingEntry pg line = some e := by
  induction ps generalizing n outline with
  | nil => exact .inl he
  | cons text rest ih =>
    simp only [textHeadingsPages] at he
    by_cases ht : text = ""
    · rw [if_pos ht] at he
      exact ih he
    · rw [if_neg ht] at he
      by_cases h50 :
          50 < (textHeadingsLines (pySplitChar '\n' text) ((n : Int) + 1) outline).length
      · rw [if_pos h50] at he
        rcases mem_textHeadingsLines he with h | h
        · exact .inl h
        · exact .inr ⟨(n : Int) + 1, h⟩
      · rw [if_neg h50] at he
        rcases ih he with h | h
        · rcases mem_textHeadingsLines h with h2 | h2
          · exact .inl h2
          · exact .inr ⟨(n : Int) + 1, h2⟩
        · exact .inr h

theorem extract_headings_level_mem {pages : List String} {e : OutlineEntry}
    (he : e ∈ extract_headings_from_text pages) : e.level ∈ sixLevels := by
  rcases mem_textHeadingsPages he with h | ⟨pg, line, h⟩
  · simp at h
  · exact lineHeadingEntry_level_mem h

theorem textHeadingsLines_length {ls : List String} {pg : Int}
    {outline : List OutlineEntry} (h : outline.length ≤ 50) :
    (textHeadingsLines ls pg outline).length ≤ 51 := by
  induction ls generalizing outline with
  | nil => exact h.trans (by norm_num)
  | cons line rest ih =>
    simp only [textHeadingsLines]
    cases hle : lineHeadingEntry pg line with
    | none => exact ih h
    | some e' =>
      simp only []
      by_cases h50 : 50 < (outline ++ [e']).length
      · rw [if_pos h50]
        simp only [List.length_append, List.length_singleton]
        omega
      · rw [if_neg h50]
        exact ih (by omega)

theorem textHeadingsPages_length {ps : List String} {n : Nat}
    {outline : List OutlineEntry} (h : outline.length ≤ 50) :
    (textHeadingsPages ps n outline).length ≤ 51 := by
  induction ps generalizing n outline with
  | nil => exact h.trans (by norm_num)
  | cons text rest ih =>
    simp only [textHeadingsPages]
    by_cases ht : text = ""
    · rw [if_pos ht]
      exact ih h
    · rw [if_neg ht]
      by_cases h50 :
          50 < (textHeadingsLines (pySplitChar '\n' text) ((n : Int) + 1) outline).length
      · rw [if_pos h50]
        exact textHeadingsLines_length h
      · rw [if_neg h50]
        exact ih (by omega)

/-- Pages ordered: the relation compared by the outline-order claims. -/
def pageLe (a b : OutlineEntry) : Prop := a.page ≤ b.page

/-- The page fields of the outline are non-decreasing. -/
def pagesSorted (l : List OutlineEntry) : Prop := List.Pairwise pageLe l

theorem pairwise_le_of_const {α β : Type} [Preorder β] (f : α → β) (l : List α)
    (v : β) (h : ∀ x ∈ l, f x = v) : List.Pairwise (fun a b => f a ≤ f b) l := by
  induction l with
  | nil => exact List.Pairwise.nil
  | cons a as ih =>
    refine List.Pairwise.cons (fun b hb => ?_) (ih fun x hx => h x (List.mem_cons_of_mem _ hx))
    rw [h a (List.mem_cons_self _ _), h b (List.mem_cons_of_mem _ hb)]

theorem textHeadingsLines_sorted {ls : List String} {pg : Int}
    {outline : List OutlineEntry} (h1 : pagesSorted outline)
    (h2 : ∀ x ∈ outline, x.page ≤ pg) :
    pagesSorted (textHeadingsLines ls pg outline) ∧
      ∀ x ∈ textHeadingsLines ls pg outline, x.page ≤ pg := by
  induction ls generalizing outline with
  | nil => exact ⟨h1, h2⟩
  | cons line rest ih =>
    simp only [textHeadingsLines]
    cases hle : lineHeadingEntry pg line with
    | none => exact ih h1 h2
    | some e' =>
      simp only []
      have hpage : e'.page = pg := (lineHeadingEntry_some hle).2
      have ho1 : pagesSorted (outline ++ [e']) := by
        refine List.pairwise_append.mpr ⟨h1, List.pairwise_singleton _ _, ?_⟩
        intro a ha b hb
        have hb' := List.mem_singleton.mp hb
        show a.page ≤ b.page
        rw [hb', hpage]
        exact h2 a ha
      have ho2 : ∀ x ∈ outline ++ [e'], x.page ≤ pg := by
        intro x hx
        rcases List.mem_append.mp hx with hx | hx
        · exact h2 x hx
        · rw [List.mem_singleton.mp hx, hpage]
      by_cases h50 : 50 < (outline ++ [e']).length
      · rw [if_pos h50]
        exact ⟨ho1, ho2⟩
      · rw [if_neg h50]
        exact ih ho1 ho2

theorem textHeadingsPages_sorted {ps : List String} {n : Nat}
    {outline : List OutlineEntry} (h1 : pagesSorted outline)
    (h2 : ∀ x ∈ outline, x.page ≤ (n : Int)) :
    pagesSorted (textHeadingsPages ps n outline) := by
  induction ps generalizing n outline with
  | nil => exact h1
  | cons text rest ih =>
    simp only [textHeadingsPages]
    by_cases ht : text = ""
    · rw [if_pos ht]
      refine ih h1 (fun x hx => (h2 x hx).trans ?_)
      push_cast
      omega
    · rw [if_neg ht]
      have h2' : ∀ x ∈ outline, x.page ≤ (n : Int) + 1 :=
        fun x hx => (h2 x hx).trans (by omega)
      obtain ⟨hs, hb⟩ :=
        @textHeadingsLines_sorted (pySplitChar '\n' text) ((n : Int) + 1) outline h1 h2'
      by_cases h50 :
          50 < (textHeadingsLines (pySplitChar '\n' text) ((n : Int) + 1) outline).length
      · rw [if_pos h50]
        exact hs
      · rw [if_neg h50]
        refine ih hs (fun x hx => ?_)
        have := hb x hx
        push_cast
        omega

theorem mem_plumberGroup {pg : Int} {ls : List String} {e : OutlineEntry}
    (he : e ∈ ls.filterMap (plumberLineEntry pg)) : e.page = pg := by
  obtain ⟨line, -, h⟩ := List.mem_filterMap.mp he
  exact (plumberLineEntry_some h).2

theorem plumberPages_page_lb {ps : List PlumberPage} {n : Nat} :
    ∀ x ∈ plumberPages ps n, (n : Int) + 1 ≤ x.page := by
  induction ps generalizing n with
  | nil => intro x hx; simp [plumberPages] at hx
  | cons p rest ih =>
    intro x hx
    simp only [plumberPages] at hx
    rcases List.mem_append.mp hx with hx | hx
    · split at hx
      · rw [mem_plumberGroup hx]
      · simp at hx
    · have := ih x hx
      push_cast at this ⊢
      omega

theorem plumberPages_sorted (ps : List PlumberPage) (n : Nat) :
    pagesSorted (plumberPages ps n) := by
  induction ps generalizing n with
  | nil => exact List.Pairwise.nil
  | cons p rest ih =>
    show List.Pairwise pageLe _
    simp only [plumberPages]
    refine List.pairwise_append.mpr ⟨?_, ih (n + 1), ?_⟩
    · split
      · exact pairwise_le_of_const OutlineEntry.page _ ((n : Int) + 1)
          (fun x hx => mem_plumberGroup hx)
      · exact List.Pairwise.nil
    · intro a ha b hb
      have hb' := plumberPages_page_lb b hb
      have ha' : a.page = (n : Int) + 1 := by
        split at ha
        · exact mem_plumberGroup ha
        · simp at ha
      show a.page ≤ b.page
      rw [ha']
      push_cast at hb'
      omega

theorem plumberPages_level_mem {ps : List PlumberPage} {n : Nat} {e : OutlineEntry}
    (he : e ∈ plumberPages ps n) : e.level ∈ sixLevels := by
  induction ps generalizing n with
  | nil => simp [plumberPages] at he
  | cons p rest ih =>
    simp only [plumberPages] at he
    rcases List.mem_append.mp he with he | he
    · split at he
      · obtain ⟨line, -, h⟩ := List.mem_filterMap.mp he
        exact plumberLineEntry_level_mem h
      · simp at he
    · exact ih he

theorem spanBlock_some {pg : Int} {s : Span} {b : Block}
    (h : spanBlock pg s = some b) : b.page = pg := by
  simp only [spanBlock] at h
  split at h
  · cases h
    rfl
  · exact absurd h (by simp)

theorem mem_collectGroup {pg : Int} {ss : List Span} {b : Block}
    (hb : b ∈ ss.filterMap (spanBlock pg)) : b.page = pg := by
  obtain ⟨s, -, h⟩ := List.mem_filterMap.mp hb
  exact spanBlock_some h

theorem collectBlocks_page_lb {ps : List FitzPage} {n : Nat} :
    ∀ x ∈ collectBlocks ps n, (n : Int) + 1 ≤ x.page := by
  induction ps generalizing n with
  | nil => intro x hx; simp [collectBlocks] at hx
  | cons p rest ih =>
    intro x hx
    simp only [collectBlocks] at hx
    rcases List.mem_append.mp hx with hx | hx
    · rw [mem_collectGroup hx]
    · have := ih x hx
      push_cast at this ⊢
      omega

theorem collectBlocks_sorted (ps : List FitzPage) (n : Nat) :
    List.Pairwise (fun a b : Block => a.page ≤ b.page) (collectBlocks ps n) := by
  induction ps generalizing n with
  | nil => exact List.Pairwise.nil
  | cons p rest ih =>
    simp only [collectBlocks]
    refine List.pairwise_append.mpr ⟨?_, ih (n + 1), ?_⟩
    · exact pairwise_le_of_const Block.page _ ((n : Int) + 1)
        (fun x hx => mem_collectGroup hx)
    · intro a ha b hb
      have hb' := collectBlocks_page_lb b hb
      have ha' := mem_collectGroup ha
      rw [ha']
      push_cast at hb'
      omega

theorem emitBlock_some {avg : ℚ} {b : Block} {e : OutlineEntry}
    (h : emitBlock avg b = some e) :
    e.page = b.page ∧ e.text = b.text ∧ pyLen b.text ≤ 200 ∧
      (b.flags.land 16 ≠ 0 ∨ avg * (12 / 10) < b.size ∨ pyIsUpper b.text = true ∨
        startsWithAny b.text fitzHeadKeys = true) ∧
      e.level = (if avg * (15 / 10) < b.size then "H1"
                 else if avg * (13 / 10) < b.size then "H2"
                 else if avg * (11 / 10) < b.size then "H3"
                 else "H4") := by
  simp only [emitBlock] at h
  split at h
  · exact absurd h (by simp)
  · rename_i hlen
    split at h
    · rename_i hcond
      cases h
      refine ⟨rfl, rfl, by omega, ?_, rfl⟩
      simp only [Bool.or_eq_true, decide_eq_true_eq] at hcond
      tauto
    · exact absurd h (by simp)

theorem emitBlock_level_mem {avg : ℚ} {b : Block} {e : OutlineEntry}
    (h : emitBlock avg b = some e) : e.level ∈ sixLevels := by
  rw [(emitBlock_some h).2.2.2.2]
  split_ifs <;> decide

theorem mem_analyze {fps : List FitzPage} {e : OutlineEntry}
    (he : e ∈ analyze_text_formatting fps) :
    ∃ b ∈ collectBlocks fps 0,
      emitBlock (avgSize (collectBlocks fps 0)) b = some e := by
  simp only [analyze_text_formatting] at he
  split at he
  · simp at he
  · exact List.mem_filterMap.mp he

theorem analyze_level_mem {fps : List FitzPage} {e : OutlineEntry}
    (he : e ∈ analyze_text_formatting fps) : e.level ∈ sixLevels := by
  obtain ⟨b, -, h⟩ := mem_analyze he
  exact emitBlock_level_mem h

theorem pairwise_filterMap_emit {avg : ℚ} {l : List Block}
    (h : List.Pairwise (fun a b : Block => a.page ≤ b.page) l) :
    pagesSorted (l.filterMap (emitBlock avg)) := by
  induction l with
  | nil => exact List.Pairwise.nil
  | cons b bs ih =>
    rw [List.filterMap_cons]
    cases hb : emitBlock avg b with
    | none => exact ih (List.pairwise_cons.mp h).2
    | some e =>
      refine List.Pairwise.cons (fun y hy => ?_) (ih (List.pairwise_cons.mp h).2)
      obtain ⟨b', hb', hy'⟩ := List.mem_filterMap.mp hy
      show e.page ≤ y.page
      rw [(emitBlock_some hb).1, (emitBlock_some hy').1]
      exact (List.pairwise_cons.mp h).1 b' hb'

theorem analyze_sorted (fps : List FitzPage) :
    pagesSorted (analyze_text_formatting fps) := by
  simp only [analyze_text_formatting]
  split
  · exact List.Pairwise.nil
  · exact pairwise_filterMap_emit (collectBlocks_sorted fps 0)

theorem toH_mem {n : Nat} (h1 : 1 ≤ n) (h6 : n ≤ 6) : toH n ∈ sixLevels := by
  interval_cases n <;> decide

theorem process_pypdf2_level_mem (bs : List Bookmark) (lvl : Nat) :
    1 ≤ lvl → ∀ e ∈ process_pypdf2_outline bs lvl, e.level ∈ sixLevels := by
  induction bs, lvl using process_pypdf2_outline.induct with
  | case1 lvl =>
    intro _ e he
    simp [process_pypdf2_outline] at he
  | case2 t pg rest lvl ih =>
    intro h1 e he
    simp only [process_pypdf2_outline] at he
    rcases List.mem_cons.mp he with rfl | he
    · show toH (min lvl 6) ∈ sixLevels
      exact toH_mem (by omega) (by omega)
    · exact ih h1 e he
  | case3 cs rest lvl ih1 ih2 =>
    intro h1 e he
    simp only [process_pypdf2_outline] at he
    rcases List.mem_append.mp he with he | he
    · exact ih1 (by omega) e he
    · exact ih2 h1 e he

theorem tocOutline_level_mem {toc : List (Nat × String × Int)}
    (h : ∀ x ∈ toc, 1 ≤ x.1) : ∀ e ∈ tocOutline toc, e.level ∈ sixLevels := by
  intro e he
  obtain ⟨x, hx, rfl⟩ := List.mem_map.mp he
  exact toH_mem (by have := h x hx; omega) (by omega)

theorem isResultObj_of_levels {t : String} {outline : List OutlineEntry}
    (h : ∀ e ∈ outline, e.level ∈ sixLevels) :
    isResultObj (resultJson ⟨t, outline⟩) := by
  show ∀ j ∈ outline.map entryJson, isEntryObj j
  intro j hj
  obtain ⟨e, he, rfl⟩ := List.mem_map.mp hj
  show e.level ∈ sixLevels
  exact h e he

/-- The digit characters `1`..`9`. -/
def digits19 : List Char := ['1', '2', '3', '4', '5', '6', '7', '8', '9']

theorem headingLevel_H1_of_num {cl : String}
    (h : startsWithAny cl numKeys = true) : headingLevel cl = "H1" := by
  cases hb : startsWithAnyUpper cl levelH1Keys <;> simp [headingLevel, hb, h]

theorem startsWithAny_num_of_digit {cl : String} {d c : Char} {rest : List Char}
    (hd : cl.data = d :: c :: rest) (h19 : d ∈ digits19) (hc : c = '.' ∨ c = ' ') :
    startsWithAny cl numKeys = true := by
  have hkey : (⟨[d, c]⟩ : String) ∈ numKeys := by
    rcases hc with rfl | rfl <;> fin_cases h19 <;> decide
  refine List.any_eq_true.mpr ⟨⟨[d, c]⟩, hkey, ?_⟩
  rw [pyStartsWith, isPrefixOfIff]
  show [d, c] <+: cl.data
  exact ⟨rest, by rw [hd]; rfl⟩

theorem sub_key_has_num_key :
    ∀ p ∈ subKeys, ∃ q ∈ numKeys, q.data <+: p.data := by decide

theorem startsWithAny_num_of_sub {cl : String}
    (h : startsWithAny cl subKeys = true) : startsWithAny cl numKeys = true := by
  obtain ⟨p, hp, hpre⟩ := List.any_eq_true.mp h
  rw [pyStartsWith, isPrefixOfIff] at hpre
  obtain ⟨q, hq, hqp⟩ := sub_key_has_num_key p hp
  refine List.any_eq_true.mpr ⟨q, hq, ?_⟩
  rw [pyStartsWith, isPrefixOfIff]
  exact hqp.trans hpre

theorem pyRfindAux_append (c : Char) (l1 l2 : List Char) :
    ∀ (i best : Int),
      pyRfindAux c (l1 ++ l2) i best =
        pyRfindAux c l2 (i + l1.length) (pyRfindAux c l1 i best) := by
  induction l1 with
  | nil =>
    intro i best
    simp [pyRfindAux]
  | cons x xs ih =>
    intro i best
    show pyRfindAux c (xs ++ l2) (i + 1) _ = _
    rw [ih]
    congr 1
    push_cast [List.length_cons]
    omega

theorem pyRfindAux_dot_pdf (m best : Int) :
    pyRfindAux '.' ['.', 'p', 'd', 'f'] m best = m := by
  show pyRfindAux '.' ['p', 'd', 'f'] (m + 1) (if ('.' : Char) = '.' then m else best) = m
  rw [if_pos rfl]
  show pyRfindAux '.' ['d', 'f'] (m + 2) (if ('p' : Char) = '.' then m + 1 else m) = m
  rw [if_neg (by decide)]
  show pyRfindAux '.' ['f'] (m + 3) (if ('d' : Char) = '.' then m + 2 else m) = m
  rw [if_neg (by decide)]
  show pyRfindAux '.' [] (m + 4) (if ('f' : Char) = '.' then m + 3 else m) = m
  rw [if_neg (by decide)]
  rfl

theorem pdfStem_append_pdf (base : String) (h : base ≠ "") :
    pdfStem (base ++ ".pdf") = base := by
  have hdata : (base ++ ".pdf").data = base.data ++ ['.', 'p', 'd', 'f'] :=
    String.data_append base ".pdf"
  have hfind : pyRfind '.' (base ++ ".pdf") = (base.data.length : Int) := by
    rw [pyRfind, hdata, pyRfindAux_append, pyRfindAux_dot_pdf]
    ring
  have hlen : (base ++ ".pdf").data.length = base.data.length + 4 := by
    rw [hdata, List.length_append]
    rfl
  have hpos : 0 < base.data.length := by
    rcases Nat.eq_zero_or_pos base.data.length with h0 | h0
    · exact absurd (List.length_eq_zero.mp h0) ((str_ne_empty_iff base).mp h)
    · exact h0
  rw [pdfStem]
  simp only [hfind, hlen]
  rw [if_pos (by omega)]
  apply String.ext
  show ((base ++ ".pdf").data.take (base.data.length : Int).toNat) = base.data
  rw [Int.toNat_natCast, hdata, List.take_left]

theorem pdfStem_ne_empty {name : String} (h : name ≠ "") : pdfStem name ≠ "" := by
  rw [pdfStem]
  split
  · rename_i hcond
    rw [str_ne_empty_iff]
    show name.data.take (pyRfind '.' name).toNat ≠ []
    rw [Ne, List.take_eq_nil_iff]
    push_neg
    constructor
    · omega
    · exact (str_ne_empty_iff name).mp h
  · exact h

theorem pyEndsWith_pdf_ne_empty {name : String}
    (h : pyEndsWith name ".pdf" = true) : name ≠ "" := by
  rw [pyEndsWith, isSuffixOfIff] at h
  rw [str_ne_empty_iff]
  intro hd
  have := h.length_le
  rw [hd] at this
  simp at this

theorem title_guard_ne (X R : String) (hR : R ≠ "") :
    (if X = "" then R else X) ≠ "" := by
  split
  · exact hR
  · assumption

theorem extract_with_pypdf2_title_ne (stem : String) (d : Pypdf2Doc)
    (h : stem ≠ "") : (extract_with_pypdf2 stem d).title ≠ "" := by
  by_cases hr : d.raises
  · simp only [extract_with_pypdf2, hr, if_true]
    exact extract_pdf_fallback_title_ne stem h
  · simp only [extract_with_pypdf2, hr, Bool.false_eq_true, if_false]
    exact title_guard_ne _ _
      (pyReplaceChar_ne_empty _ _ _ (pyReplaceChar_ne_empty _ _ _ h))

theorem extract_with_pdfplumber_title_ne (stem : String) (d : PlumberDoc)
    (h : stem ≠ "") : (extract_with_pdfplumber stem d).title ≠ "" := by
  by_cases hr : d.raises
  · simp only [extract_with_pdfplumber, hr, if_true]
    exact extract_pdf_fallback_title_ne stem h
  · simp only [extract_with_pdfplumber, hr, Bool.false_eq_true, if_false]
    exact title_guard_ne _ _ h

theorem extract_with_pymupdf_title_ne (stem : String) (d : FitzDoc)
    (h : stem ≠ "") : (extract_with_pymupdf stem d).title ≠ "" := by
  simp only [extract_with_pymupdf]
  exact title_guard_ne _ _ h

/-! ## Claim theorems -/

/-- C1: the claim says every embedded-TOC entry is emitted with its
correct page number on every backend.  On the PyPDF2 bookmark path this
fails: the code stores `item.page.idnum` — the PDF indirect-object
identifier of the page object — as the page number (line 104 of
`process_pdfs.py`), not the page's position in the document.  At the
concrete failing input below the bookmark targets page 2 while its page
object's `idnum` is 5, and the emitted entry carries page 5. -/
theorem C1_pypdf2_emits_idnum_not_page :
    process_pypdf2_outline [Bookmark.item "Intro" (some ⟨some 5, 2⟩)] 1 =
      [⟨"H1", "Intro", 5⟩] ∧
    (PageObj.mk (some 5) 2).truePage = 2 ∧ (5 : Int) ≠ 2 := by
  refine ⟨?_, rfl, by decide⟩
  simp only [process_pypdf2_outline]
  decide

/-- C2: a file whose processing raises an exception still gets an output
record — named after its stem, with the stem as title and an empty
outline — and every other file in the batch is still processed, before
and after the failing one. -/
theorem C2_error_fallback_continues (pre post : List PdfJob) (name : String) :
    process_pdfs (pre ++ PdfJob.mk name PdfData.raises :: post) =
      process_pdfs pre ++
        (pdfStem name ++ ".json", ExtractionResult.mk (pdfStem name) []) ::
          process_pdfs post := by
  induction pre with
  | nil => rfl
  | cons j rest ih => simp [process_pdfs, ih]

/-- C3: the heuristic heading-detection paths are total functions whose
results serialize to JSON conforming to the ExtractionResult schema, and
the average-font-size denominator in `analyze_text_formatting` is
positive whenever the average is computed (the blocks are non-empty). -/
theorem C3_heuristics_valid_json :
    ∀ (pages : List String) (ps : List PlumberPage) (fps : List FitzPage)
      (t : String),
      isResultObj (resultJson ⟨t, extract_headings_from_text pages⟩) ∧
      isResultObj (resultJson ⟨t, plumberPages ps 0⟩) ∧
      isResultObj (resultJson ⟨t, analyze_text_formatting fps⟩) ∧
      (collectBlocks fps 0 ≠ [] →
        0 < ((collectBlocks fps 0).map Block.size).length) := by
  intro pages ps fps t
  refine ⟨isResultObj_of_levels (fun e he => extract_headings_level_mem he),
          isResultObj_of_levels (fun e he => plumberPages_level_mem he),
          isResultObj_of_levels (fun e he => analyze_level_mem he), ?_⟩
  intro hne
  simpa [List.length_map] using List.length_pos.mpr hne

/-- C3 witness: at a concrete one-span document the blocks are non-empty
and the theorem yields a positive denominator. -/
theorem C3_heuristics_valid_json_witness :
    collectBlocks [FitzPage.mk "" [Span.mk "HEADING ONE" 20 0]] 0 ≠ [] ∧
    0 < ((collectBlocks [FitzPage.mk "" [Span.mk "HEADING ONE" 20 0]] 0).map
          Block.size).length := by
  constructor
  · decide
  · exact (C3_heuristics_valid_json [] [] [FitzPage.mk "" [Span.mk "HEADING ONE" 20 0]]
      "t").2.2.2 (by decide)

/-- C4: every entry produced by any of the five extraction paths carries
a level among H1..H6 (text and page are a `String` and an `Int` by the
type of `OutlineEntry`).  The bookmark path is entered at level 1 and the
PyMuPDF TOC levels are at least 1, as `get_toc` guarantees. -/
theorem C4_entry_schema :
    (∀ (bs : List Bookmark) (lvl : Nat), 1 ≤ lvl →
        ∀ e ∈ process_pypdf2_outline bs lvl, e.level ∈ sixLevels) ∧
    (∀ pages : List String,
        ∀ e ∈ extract_headings_from_text pages, e.level ∈ sixLevels) ∧
    (∀ (ps : List PlumberPage) (n : Nat),
        ∀ e ∈ plumberPages ps n, e.level ∈ sixLevels) ∧
    (∀ toc : List (Nat × String × Int), (∀ x ∈ toc, 1 ≤ x.1) →
        ∀ e ∈ tocOutline toc, e.level ∈ sixLevels) ∧
    (∀ fps : List FitzPage,
        ∀ e ∈ analyze_text_formatting fps, e.level ∈ sixLevels) := by
  refine ⟨process_pypdf2_level_mem, ?_, ?_, ?_, ?_⟩
  · intro pages e he
    exact extract_headings_level_mem he
  · intro ps n e he
    exact plumberPages_level_mem he
  · intro toc h e he
    exact tocOutline_level_mem h e he
  · intro fps e he
    exact analyze_level_mem he

/-- C4 witness: the bookmark path at level 1 and the TOC path at a
level-2 entry produce entries whose levels are among H1..H6. -/
theorem C4_entry_schema_witness :
    (1 : Nat) ≤ 1 ∧ (∀ x ∈ [((2 : Nat), "Ch", (3 : Int))], 1 ≤ x.1) ∧
    (OutlineEntry.mk "H1" "Overview" 1).level ∈ sixLevels ∧
    (OutlineEntry.mk "H2" "Ch" 3).level ∈ sixLevels := by
  refine ⟨by decide, by decide, ?_, ?_⟩
  · refine C4_entry_schema.1 [Bookmark.item "Overview" none] 1 (by decide) _ ?_
    show OutlineEntry.mk "H1" "Overview" 1 ∈
      process_pypdf2_outline [Bookmark.item "Overview" none] 1
    simp only [process_pypdf2_outline]
    decide
  · exact C4_entry_schema.2.2.2.1 [((2 : Nat), "Ch", (3 : Int))] (by decide) _
      (List.mem_singleton.mpr rfl)

theorem jobOutput_fst (j : PdfJob) : (jobOutput j).1 = pdfStem j.name ++ ".json" := by
  cases j with
  | mk name data => cases data <;> rfl

theorem jobOutput_snd (j : PdfJob) : (jobOutput j).2 = jobResult j := by
  cases j with
  | mk name data => cases data <;> rfl

/-- C5: the batch loop writes exactly one output per scanned input, in
order: the output names are the input stems with `.json` appended, the
output contents are the per-input extraction results, and a name
`X.pdf` with non-empty `X` has stem `X`. -/
theorem C5_one_output_per_input (jobs : List PdfJob) (base : String)
    (hbase : base ≠ "") :
    (process_pdfs jobs).length = jobs.length ∧
    (process_pdfs jobs).map Prod.fst =
      jobs.map (fun j => pdfStem j.name ++ ".json") ∧
    (process_pdfs jobs).map Prod.snd = jobs.map jobResult ∧
    pdfStem (base ++ ".pdf") = base := by
  refine ⟨?_, ?_, ?_, pdfStem_append_pdf base hbase⟩ <;>
    induction jobs with
    | nil => rfl
    | cons j rest ih =>
      simp [process_pdfs, ih, jobOutput_fst, jobOutput_snd]

/-- C5 witness: a concrete two-file batch, one of them failing. -/
theorem C5_one_output_per_input_witness :
    ("a" : String) ≠ "" ∧
    (process_pdfs [PdfJob.mk "a.pdf" (PdfData.ok ⟨"T", []⟩),
                   PdfJob.mk "b.pdf" PdfData.raises]).length = 2 ∧
    pdfStem ("a" ++ ".pdf") = "a" := by
  have h := C5_one_output_per_input
    [PdfJob.mk "a.pdf" (PdfData.ok ⟨"T", []⟩), PdfJob.mk "b.pdf" PdfData.raises]
    "a" (by decide)
  exact ⟨by decide, h.1, h.2.2.2⟩

/-- C6: in `analyze_text_formatting` every emitted entry comes from a
block that is bold, larger than 1.2 times the document-average span
size, all-uppercase, or keyword-prefixed, with text at most 200
characters; its level is H1 above 1.5 times the average, H2 above 1.3,
H3 above 1.1, else H4, in cascade. -/
theorem C6_formatting_levels :
    ∀ (fps : List FitzPage) (e : OutlineEntry),
      e ∈ analyze_text_formatting fps →
      ∃ b ∈ collectBlocks fps 0,
        emitBlock (avgSize (collectBlocks fps 0)) b = some e ∧
        pyLen b.text ≤ 200 ∧
        (b.flags.land 16 ≠ 0 ∨
          avgSize (collectBlocks fps 0) * (12 / 10) < b.size ∨
          pyIsUpper b.text = true ∨ startsWithAny b.text fitzHeadKeys = true) ∧
        (avgSize (collectBlocks fps 0) * (15 / 10) < b.size → e.level = "H1") ∧
        (¬ avgSize (collectBlocks fps 0) * (15 / 10) < b.size →
          avgSize (collectBlocks fps 0) * (13 / 10) < b.size → e.level = "H2") ∧
        (¬ avgSize (collectBlocks fps 0) * (15 / 10) < b.size →
          ¬ avgSize (collectBlocks fps 0) * (13 / 10) < b.size →
          avgSize (collectBlocks fps 0) * (11 / 10) < b.size → e.level = "H3") ∧
        (¬ avgSize (collectBlocks fps 0) * (15 / 10) < b.size →
          ¬ avgSize (collectBlocks fps 0) * (13 / 10) < b.size →
          ¬ avgSize (collectBlocks fps 0) * (11 / 10) < b.size →
          e.level = "H4") := by
  intro fps e he
  obtain ⟨b, hb, hemit⟩ := mem_analyze he
  obtain ⟨-, -, hlen, hcond, hlevel⟩ := emitBlock_some hemit
  refine ⟨b, hb, hemit, hlen, hcond, ?_, ?_, ?_, ?_⟩
  · intro h1
    rw [hlevel, if_pos h1]
  · intro h1 h2
    rw [hlevel, if_neg h1, if_pos h2]
  · intro h1 h2 h3
    rw [hlevel, if_neg h1, if_neg h2, if_pos h3]
  · intro h1 h2 h3
    rw [hlevel, if_neg h1, if_neg h2, if_neg h3]

/-- C6 witness: a one-span page; the uppercase span of size 20 equals
the document average, so it is emitted as H4. -/
theorem C6_formatting_levels_witness :
    ∃ b ∈ collectBlocks [FitzPage.mk "" [Span.mk "INTRODUCTION" 20 0]] 0,
      emitBlock
        (avgSize (collectBlocks [FitzPage.mk "" [Span.mk "INTRODUCTION" 20 0]] 0))
        b = some (OutlineEntry.mk "H4" "INTRODUCTION" 1) := by
  have hcb : collectBlocks [FitzPage.mk "" [Span.mk "INTRODUCTION" 20 0]] 0 =
      [Block.mk "INTRODUCTION" 20 0 1] := rfl
  have havg : avgSize [Block.mk "INTRODUCTION" 20 0 1] = 20 := by
    simp [avgSize]
  have hcond : (decide ((Block.mk "INTRODUCTION" 20 0 1).flags.land 16 ≠ 0) ||
      decide ((20 : ℚ) * (12 / 10) < (Block.mk "INTRODUCTION" 20 0 1).size) ||
      pyIsUpper (Block.mk "INTRODUCTION" 20 0 1).text ||
      startsWithAny (Block.mk "INTRODUCTION" 20 0 1).text fitzHeadKeys) = true := by
    have hupper : pyIsUpper "INTRODUCTION" = true := by decide
    simp [hupper]
  have hemit : emitBlock 20 (Block.mk "INTRODUCTION" 20 0 1) =
      some (OutlineEntry.mk "H4" "INTRODUCTION" 1) := by
    simp only [emitBlock]
    rw [if_neg (by decide : ¬ (200 < pyLen "INTRODUCTION"))]
    rw [if_pos hcond]
    rw [if_neg (by norm_num : ¬ ((20 : ℚ) * (15 / 10) < 20))]
    rw [if_neg (by norm_num : ¬ ((20 : ℚ) * (13 / 10) < 20))]
    rw [if_neg (by norm_num : ¬ ((20 : ℚ) * (11 / 10) < 20))]
  have hmem : OutlineEntry.mk "H4" "INTRODUCTION" 1 ∈
      analyze_text_formatting [FitzPage.mk "" [Span.mk "INTRODUCTION" 20 0]] := by
    simp only [analyze_text_formatting, hcb, havg]
    rw [if_neg (by decide : ¬ (([Block.mk "INTRODUCTION" 20 0 1]).isEmpty = true))]
    rw [List.filterMap_cons, hemit]
    simp
  obtain ⟨b, hb, hemit2, -⟩ := C6_formatting_levels
    [FitzPage.mk "" [Span.mk "INTRODUCTION" 20 0]]
    (OutlineEntry.mk "H4" "INTRODUCTION" 1) hmem
  exact ⟨b, hb, hemit2⟩

/-- C7: the heuristic outlines list their entries in page order: the
page fields are pairwise non-decreasing for the PyPDF2 text heuristic,
the pdfplumber heuristic and the PyMuPDF formatting heuristic. -/
theorem C7_pages_nondecreasing :
    ∀ (pages : List String) (ps : List PlumberPage) (fps : List FitzPage),
      pagesSorted (extract_headings_from_text pages) ∧
      pagesSorted (plumberPages ps 0) ∧
      pagesSorted (analyze_text_formatting fps) := by
  intro pages ps fps
  refine ⟨?_, plumberPages_sorted ps 0, analyze_sorted fps⟩
  exact textHeadingsPages_sorted List.Pairwise.nil (by simp)

/-- C8: in `extract_headings_from_text`, any cleaned line starting with
a digit 1-9 followed by a period or a space is levelled H1 — including
subsection-numbered lines, so the H2 subsection branch can never fire
on a line its prefix test matches. -/
theorem C8_digit_start_is_H1 :
    (∀ (cl : String) (d c : Char) (rest : List Char),
        cl.data = d :: c :: rest → d ∈ digits19 → (c = '.' ∨ c = ' ') →
          headingLevel cl = "H1") ∧
    ∀ cl : String, startsWithAny cl subKeys = true → headingLevel cl = "H1" := by
  constructor
  · intro cl d c rest hd h19 hc
    exact headingLevel_H1_of_num (startsWithAny_num_of_digit hd h19 hc)
  · intro cl h
    exact headingLevel_H1_of_num (startsWithAny_num_of_sub h)

/-- C8 witness: the subsection-looking line `1.1 Overview` is assigned
H1, not H2. -/
theorem C8_digit_start_is_H1_witness :
    headingLevel "1.1 Overview" = "H1" ∧
    startsWithAny "1.1 Overview" subKeys = true ∧
    headingLevel "1.1 Overview" ≠ "H2" := by
  have h1 := C8_digit_start_is_H1.1 "1.1 Overview" '1' '.' "1 Overview".data
    rfl (by decide) (Or.inl rfl)
  exact ⟨h1, by decide, by rw [h1]; decide⟩

/-- C9: the PyPDF2 text heuristic stops appending once its outline
exceeds 50 entries, so no outline it returns is longer than 51. -/
theorem C9_outline_at_most_51 (pages : List String) :
    (extract_headings_from_text pages).length ≤ 51 :=
  textHeadingsPages_length (by simp)

/-- C10: for any input matched by `*.pdf` the written title is
non-empty on every backend: each one falls back to the filename stem
(possibly replaced/title-cased), and the stem of a `*.pdf` name is
never empty. -/
theorem C10_title_nonempty :
    ∀ (name : String) (d1 : Pypdf2Doc) (d2 : PlumberDoc) (d3 : FitzDoc),
      pyEndsWith name ".pdf" = true →
      pdfStem name ≠ "" ∧
      (extract_with_pypdf2 (pdfStem name) d1).title ≠ "" ∧
      (extract_with_pdfplumber (pdfStem name) d2).title ≠ "" ∧
      (extract_with_pymupdf (pdfStem name) d3).title ≠ "" ∧
      (extract_pdf_fallback (pdfStem name)).title ≠ "" ∧
      (jobResult (PdfJob.mk name PdfData.raises)).title ≠ "" := by
  intro name d1 d2 d3 h
  have hne := pdfStem_ne_empty (pyEndsWith_pdf_ne_empty h)
  exact ⟨hne, extract_with_pypdf2_title_ne _ _ hne,
    extract_with_pdfplumber_title_ne _ _ hne,
    extract_with_pymupdf_title_ne _ _ hne,
    extract_pdf_fallback_title_ne _ hne, hne⟩

/-- C10 witness: a concrete filename with empty metadata and pages on
every backend still yields a non-empty title. -/
theorem C10_title_nonempty_witness :
    pyEndsWith "annual_report.pdf" ".pdf" = true ∧
    pdfStem "annual_report.pdf" ≠ "" ∧
    (extract_with_pypdf2 (pdfStem "annual_report.pdf")
      (Pypdf2Doc.mk "" [] [] false)).title ≠ "" := by
  have h := C10_title_nonempty "annual_report.pdf" (Pypdf2Doc.mk "" [] [] false)
    (PlumberDoc.mk [] false) (FitzDoc.mk "" [] []) (by decide)
  exact ⟨by decide, h.1, h.2.1⟩
